import Mathlib

/-!
Shallow embedding of the two-phase-commit chaincode
(`src/InitialChaincode.go`, final revision) and proofs about its
transaction lifecycle and vote-evaluation engine.

Modelling conventions:
* The ledger (`shim.ChaincodeStubInterface` state) is a typed key/value
  store `Store := String → Option Transaction`; JSON marshalling at the
  boundary is assumed to round-trip, so records are stored as values.
* Time is a `Nat` counted in seconds; each invocation receives the
  current time `now` as an explicit argument (the Go code calls
  `time.Now()` during an invocation).  Five minutes is `300`.
* Decision values keep the source's string sentinels `"P"`, `"C"`, `"A"`
  and `""` (unset).
* Each chaincode operation becomes a function from the store (plus its
  decoded request) to a pair of the updated store and a response,
  `Except String α` standing for `shim.Error` / `shim.Success`.
-/

/-- Peer, as in the Go struct: an identifier and a decision string. -/
structure Peer where
  PeerID : String
  PeerDecision : String
deriving DecidableEq, Repr

/-- Transaction, as in the Go struct.  `TransactionExpire` is the expiry
timestamp in seconds. -/
structure Transaction where
  TransactionID : String
  InvolvedPeers : List Peer
  FinalDecision : String
  TransactionExpire : Nat
deriving DecidableEq, Repr

/-- Decoded payload of a `makePeerDecision` request. -/
structure PeerUpdateRequestModel where
  TransactionID : String
  PeerID : String
  Decision : String
deriving DecidableEq, Repr

/-- Response payload of `queryFinalDecision`. -/
structure FinalDecisionResponseModel where
  TransactionID : String
  FinalDecision : String
deriving DecidableEq, Repr

def PendingState : String := "P"
def CommitState : String := "C"
def AbortState : String := "A"

/-- The ledger state restricted to transaction records. -/
def Store : Type := String → Option Transaction

/-- The empty ledger. -/
def emptyStore : Store := fun _ => none

/-- `APIstub.PutState`. -/
def putState (store : Store) (key : String) (t : Transaction) : Store :=
  fun k => if k = key then some t else store k

/-- `checkTransactionIDExistence`: true iff a record is stored under the id
(final-revision polarity). -/
def checkTransactionIDExistence (store : Store) (transactionID : String) : Bool :=
  match store transactionID with
  | none => false
  | some _ => true

/-- Body of the `for _, peer := range tran.InvolvedPeers` loop in
`checkPeersVoted`.  Every branch of the Go loop body returns, so the loop
inspects at most its first element; falling off the end of the list is the
post-loop `return true, CommitState`. -/
def votedLoop (now : Nat) (expire : Nat) : List Peer → Bool × String
  | [] => (true, CommitState)
  | peer :: _ =>
    if peer.PeerDecision ≠ "" ∧ peer.PeerDecision = AbortState then
      (true, AbortState)
    else if (peer.PeerDecision = "" ∨ peer.PeerDecision = PendingState) ∧ expire < now then
      (true, AbortState)
    else
      (false, PendingState)

/-- `checkPeersVoted`: validates whether the peers have finished voting.
Mirrors the Go function: an empty peer list yields `(false, "")`; otherwise
the loop over the peers runs (and, as in the source, returns on its first
iteration). -/
def checkPeersVoted (now : Nat) (tran : Transaction) : Bool × String :=
  if tran.InvolvedPeers.length ≤ 0 then
    (false, "")
  else
    votedLoop now tran.TransactionExpire tran.InvolvedPeers

/-- The record `addTransaction` persists (Go lines 126–134): the request with
`FinalDecision` forced to `Pending`, expiry set to creation time plus five
minutes, and every peer's decision forced to `Pending`. -/
def addedTransaction (now : Nat) (currentTrans : Transaction) : Transaction :=
  { currentTrans with
    FinalDecision := PendingState
    TransactionExpire := now + 300
    InvolvedPeers := currentTrans.InvolvedPeers.map fun p =>
      { p with PeerDecision := PendingState } }

/-- `addTransaction`: creates a new transaction.  The argument-decoding
failures of the Go code (arg count, JSON) are outside the typed model. -/
def addTransaction (now : Nat) (store : Store) (currentTrans : Transaction) :
    Store × Except String Unit :=
  if currentTrans.TransactionID = "" ∨ checkTransactionIDExistence store currentTrans.TransactionID then
    (store, .error "Invalid or already existent transaction id")
  else if currentTrans.InvolvedPeers.length ≤ 0 then
    (store, .error "There are no peers involved in the transaction")
  else
    (putState store (addedTransaction now currentTrans).TransactionID
      (addedTransaction now currentTrans), .ok ())

/-- `queryTransaction`: read-only lookup of a stored record. -/
def queryTransaction (store : Store) (transID : String) : Except String Transaction :=
  match store transID with
  | none => .error "Transaction does not exist"
  | some t => .ok t

/-- The `for index, elem := range transaction.InvolvedPeers` loop of
`makePeerDecision`: update the first peer whose id matches and stop;
`none` models `peerUpdated == false`. -/
def updatePeer (peers : List Peer) (peerID : String) (decision : String) :
    Option (List Peer) :=
  match peers with
  | [] => none
  | p :: rest =>
    if p.PeerID = peerID then
      some ({ p with PeerDecision := decision } :: rest)
    else
      (updatePeer rest peerID decision).map (p :: ·)

/-- The record `makePeerDecision` persists on its evaluation path (Go lines
205–211): the transaction with the updated peer list, its `FinalDecision`
overwritten with the engine's state when the engine reports a decision. -/
def voteResult (now : Nat) (transaction : Transaction) (newPeers : List Peer) : Transaction :=
  let transaction1 := { transaction with InvolvedPeers := newPeers }
  let res := checkPeersVoted now transaction1
  if res.1 then { transaction1 with FinalDecision := res.2 } else transaction1

/-- `makePeerDecision`: updates the decision state for one peer.  Mirrors the
Go control flow, including the Abort short-circuit that returns success
without calling `PutState`. -/
def makePeerDecision (now : Nat) (store : Store) (currentTrans : PeerUpdateRequestModel) :
    Store × Except String Unit :=
  if currentTrans.TransactionID = "" ∨ ¬ checkTransactionIDExistence store currentTrans.TransactionID then
    (store, .error "Invalid transactionId")
  else
    match store currentTrans.TransactionID with
    | none => (store, .error "Could not get transaction from persistent state")
    | some transaction =>
      if transaction.FinalDecision ≠ "" ∧ transaction.FinalDecision ≠ PendingState then
        (store, .ok ())
      else if transaction.InvolvedPeers.length ≤ 0 then
        (store, .error "Invalid number of peers for transaction")
      else
        match updatePeer transaction.InvolvedPeers currentTrans.PeerID currentTrans.Decision with
        | none => (store, .error "Peer could not be found")
        | some newPeers =>
          if currentTrans.Decision = AbortState then
            -- Go: sets transaction.FinalDecision = AbortState on the local
            -- struct and returns shim.Success(nil) without PutState.
            (store, .ok ())
          else
            (putState store (voteResult now transaction newPeers).TransactionID
              (voteResult now transaction newPeers), .ok ())

/-- `queryFinalDecision`: reports (and, when newly decided, persists) the
final decision of a transaction. -/
def queryFinalDecision (now : Nat) (store : Store) (transID : String) :
    Store × Except String FinalDecisionResponseModel :=
  if ¬ checkTransactionIDExistence store transID then
    (store, .error "Transaction does not exist")
  else
    match store transID with
    | none => (store, .error "Internal error while getting the transaction")
    | some scTrans =>
      if scTrans.TransactionID = "" then
        (store, .error "Internal error while getting transaction")
      else
        let res := checkPeersVoted now scTrans
        if res.1 then
          let scTrans2 := { scTrans with FinalDecision := res.2 }
          (putState store scTrans2.TransactionID scTrans2,
           .ok { TransactionID := scTrans2.TransactionID, FinalDecision := scTrans2.FinalDecision })
        else
          (store, .ok { TransactionID := scTrans.TransactionID, FinalDecision := scTrans.FinalDecision })

/-- A store-mutating invocation of the chaincode (the three operations that
can write transaction records). -/
inductive Op where
  | add (now : Nat) (req : Transaction)
  | vote (now : Nat) (req : PeerUpdateRequestModel)
  | queryFinal (now : Nat) (transID : String)

/-- Store effect of one invocation. -/
def applyOp (op : Op) (store : Store) : Store :=
  match op with
  | .add now req => (addTransaction now store req).1
  | .vote now req => (makePeerDecision now store req).1
  | .queryFinal now transID => (queryFinalDecision now store transID).1

/-- Store effect of a sequence of invocations, oldest first. -/
def applyOps (ops : List Op) (store : Store) : Store :=
  ops.foldl (fun s op => applyOp op s) store

example : checkPeersVoted 0 ⟨"t", [⟨"p1", "P"⟩, ⟨"p2", "A"⟩], "P", 300⟩ = (false, "P") := by rfl
example : checkPeersVoted 301 ⟨"t", [⟨"p1", "P"⟩, ⟨"p2", "C"⟩], "P", 300⟩ = (true, "A") := by rfl
example : checkPeersVoted 0 ⟨"t", [⟨"p1", "A"⟩, ⟨"p2", "C"⟩], "P", 300⟩ = (true, "A") := by rfl
example : checkPeersVoted 0 ⟨"t", [], "P", 300⟩ = (false, "") := by rfl

/-! ## Helper lemmas -/

lemma updatePeer_eq_none (peers : List Peer) (peerID decision : String)
    (h : ∀ p ∈ peers, p.PeerID ≠ peerID) :
    updatePeer peers peerID decision = none := by
  induction peers with
  | nil => rfl
  | cons p rest ih =>
    have hp : p.PeerID ≠ peerID := h p (List.mem_cons_self p rest)
    have hrest := ih fun q hq => h q (List.mem_cons_of_mem p hq)
    simp [updatePeer, hp, hrest]

/-- Every peer of the record persisted by `addTransaction` has decision
`Pending` (supporting fact for the round-trip property). -/
lemma addedTransaction_peers_pending (now : Nat) (currentTrans : Transaction) :
    ∀ p ∈ (addedTransaction now currentTrans).InvolvedPeers, p.PeerDecision = PendingState := by
  intro p hp
  simp only [addedTransaction, List.mem_map] at hp
  obtain ⟨q, _, rfl⟩ := hp
  rfl

/-! ## Claim theorems -/

/-- C1: for every transaction whose `involved_peers` list is non-empty,
`checkPeersVoted` inspects only the first peer: it returns (decided, Abort)
if that peer's decision is Abort, else (decided, Abort) if that peer's
decision is empty/Pending and the current time is past `expires_at`, else
(not decided, Pending) — independently of every remaining peer (the
right-hand side does not mention `rest`). -/
theorem checkPeersVoted_first_peer_only (now : Nat) (tran : Transaction)
    (p : Peer) (rest : List Peer) (h : tran.InvolvedPeers = p :: rest) :
    checkPeersVoted now tran =
      (if p.PeerDecision = AbortState then (true, AbortState)
       else if (p.PeerDecision = "" ∨ p.PeerDecision = PendingState) ∧
           tran.TransactionExpire < now then (true, AbortState)
       else (false, PendingState)) := by
  unfold checkPeersVoted
  rw [h]
  have hlen : ¬ ((p :: rest).length ≤ 0) := by simp
  rw [if_neg hlen]
  show (if p.PeerDecision ≠ "" ∧ p.PeerDecision = AbortState then (true, AbortState)
        else if (p.PeerDecision = "" ∨ p.PeerDecision = PendingState) ∧
            tran.TransactionExpire < now then (true, AbortState)
        else (false, PendingState)) = _
  by_cases hA : p.PeerDecision = AbortState
  · have hne : p.PeerDecision ≠ "" := by rw [hA]; decide
    rw [if_pos ⟨hne, hA⟩, if_pos hA]
  · rw [if_neg (fun hc => hA hc.2), if_neg hA]

/-- C1 witness: concrete first-peer-Abort transaction with a second peer
that voted Commit; the engine decides Abort from the first peer alone. -/
theorem checkPeersVoted_first_peer_only_witness :
    (⟨"t", [⟨"p1", "A"⟩, ⟨"p2", "C"⟩], "P", 300⟩ : Transaction).InvolvedPeers =
      ⟨"p1", "A"⟩ :: [⟨"p2", "C"⟩] ∧
    checkPeersVoted 0 ⟨"t", [⟨"p1", "A"⟩, ⟨"p2", "C"⟩], "P", 300⟩ = (true, AbortState) :=
  ⟨rfl,
   (checkPeersVoted_first_peer_only 0 ⟨"t", [⟨"p1", "A"⟩, ⟨"p2", "C"⟩], "P", 300⟩
     ⟨"p1", "A"⟩ [⟨"p2", "C"⟩] rfl).trans (by decide)⟩

/-- C5: a `makePeerDecision` call against a stored transaction whose
`final_decision` is already terminal (Commit or Abort) returns success and
leaves the whole store — in particular that transaction's record —
unchanged. -/
theorem makePeerDecision_terminal_noop (now : Nat) (store : Store)
    (req : PeerUpdateRequestModel) (tx : Transaction)
    (hne : req.TransactionID ≠ "")
    (hstore : store req.TransactionID = some tx)
    (hterm : tx.FinalDecision = CommitState ∨ tx.FinalDecision = AbortState) :
    makePeerDecision now store req = (store, .ok ()) := by
  rcases hterm with h | h <;>
    simp [makePeerDecision, checkTransactionIDExistence, hstore, hne, h,
      CommitState, AbortState, PendingState]

/-- C5 witness: a Commit-final transaction; a further Abort vote by a member
peer is a successful no-op. -/
theorem makePeerDecision_terminal_noop_witness :
    ("tx1" : String) ≠ "" ∧
    putState emptyStore "tx1" ⟨"tx1", [⟨"p1", "C"⟩], "C", 300⟩ "tx1" =
      some ⟨"tx1", [⟨"p1", "C"⟩], "C", 300⟩ ∧
    makePeerDecision 0 (putState emptyStore "tx1" ⟨"tx1", [⟨"p1", "C"⟩], "C", 300⟩)
      ⟨"tx1", "p1", "A"⟩ =
      (putState emptyStore "tx1" ⟨"tx1", [⟨"p1", "C"⟩], "C", 300⟩, .ok ()) :=
  ⟨by decide, rfl,
   makePeerDecision_terminal_noop 0 _ ⟨"tx1", "p1", "A"⟩ ⟨"tx1", [⟨"p1", "C"⟩], "C", 300⟩
     (by decide) rfl (Or.inl rfl)⟩

/-- C7: an `addTransaction` call whose id already names a stored record fails
with the already-existent-id error and returns the store unchanged, whatever
the rest of the payload. -/
theorem addTransaction_existing_id_fails (now : Nat) (store : Store)
    (req : Transaction) (tx : Transaction)
    (hex : store req.TransactionID = some tx) :
    addTransaction now store req = (store, .error "Invalid or already existent transaction id") := by
  simp [addTransaction, checkTransactionIDExistence, hex]

/-- C7 witness: re-adding id "tx1" with a different payload fails and the
store is returned unchanged. -/
theorem addTransaction_existing_id_fails_witness :
    putState emptyStore "tx1" ⟨"tx1", [⟨"p1", "P"⟩], "P", 300⟩ "tx1" =
      some ⟨"tx1", [⟨"p1", "P"⟩], "P", 300⟩ ∧
    addTransaction 7 (putState emptyStore "tx1" ⟨"tx1", [⟨"p1", "P"⟩], "P", 300⟩)
      ⟨"tx1", [⟨"p9", ""⟩], "", 0⟩ =
      (putState emptyStore "tx1" ⟨"tx1", [⟨"p1", "P"⟩], "P", 300⟩,
       .error "Invalid or already existent transaction id") :=
  ⟨rfl,
   addTransaction_existing_id_fails 7 _ ⟨"tx1", [⟨"p9", ""⟩], "", 0⟩
     ⟨"tx1", [⟨"p1", "P"⟩], "P", 300⟩ rfl⟩

/-- C8: a `makePeerDecision` call against an existing, non-terminal
transaction whose `peer_id` matches no involved peer fails with the
peer-not-found error and returns the store unchanged. -/
theorem makePeerDecision_unknown_peer (now : Nat) (store : Store)
    (req : PeerUpdateRequestModel) (tx : Transaction)
    (hne : req.TransactionID ≠ "")
    (hstore : store req.TransactionID = some tx)
    (hnt : tx.FinalDecision = "" ∨ tx.FinalDecision = PendingState)
    (hpeers : tx.InvolvedPeers ≠ [])
    (hmem : ∀ p ∈ tx.InvolvedPeers, p.PeerID ≠ req.PeerID) :
    makePeerDecision now store req = (store, .error "Peer could not be found") := by
  have hup := updatePeer_eq_none tx.InvolvedPeers req.PeerID req.Decision hmem
  have hlen : ¬ (tx.InvolvedPeers.length ≤ 0) := by
    simp [List.length_eq_zero, hpeers]
  rcases hnt with h | h <;>
    simp [makePeerDecision, checkTransactionIDExistence, hstore, hne, h, hup, hlen,
      PendingState]

/-- C8 witness: peer "p9" votes on a transaction whose peers are p1, p2;
the call fails with peer-not-found and the store is unchanged. -/
theorem makePeerDecision_unknown_peer_witness :
    ("tx1" : String) ≠ "" ∧
    putState emptyStore "tx1" ⟨"tx1", [⟨"p1", "P"⟩, ⟨"p2", "P"⟩], "P", 300⟩ "tx1" =
      some ⟨"tx1", [⟨"p1", "P"⟩, ⟨"p2", "P"⟩], "P", 300⟩ ∧
    (∀ p ∈ (⟨"tx1", [⟨"p1", "P"⟩, ⟨"p2", "P"⟩], "P", 300⟩ : Transaction).InvolvedPeers,
      p.PeerID ≠ "p9") ∧
    makePeerDecision 5 (putState emptyStore "tx1" ⟨"tx1", [⟨"p1", "P"⟩, ⟨"p2", "P"⟩], "P", 300⟩)
      ⟨"tx1", "p9", "C"⟩ =
      (putState emptyStore "tx1" ⟨"tx1", [⟨"p1", "P"⟩, ⟨"p2", "P"⟩], "P", 300⟩,
       .error "Peer could not be found") :=
  ⟨by decide, rfl, by decide,
   makePeerDecision_unknown_peer 5 _ ⟨"tx1", "p9", "C"⟩
     ⟨"tx1", [⟨"p1", "P"⟩, ⟨"p2", "P"⟩], "P", 300⟩
     (by decide) rfl (Or.inr rfl) (by decide) (by decide)⟩

/-- C6 counterexample: `checkPeersVoted` on a transaction with an empty
`involved_peers` list does not signal an error — it has no error channel and
returns the ordinary pair `(false, "")` (not decided, unset decision). -/
theorem checkPeersVoted_empty_peers_counterexample :
    checkPeersVoted 0 ⟨"t", [], "P", 300⟩ = (false, "") := rfl

/-- C6 amended: applied to a transaction whose `involved_peers` list is
empty, `checkPeersVoted` returns the normal result (not decided, empty
decision string) before entering the evaluation loop; it does not signal an
error (the caller `makePeerDecision` rejects empty-peer transactions
itself, before invoking the engine). -/
theorem checkPeersVoted_empty_peers (now : Nat) (tran : Transaction)
    (h : tran.InvolvedPeers = []) :
    checkPeersVoted now tran = (false, "") := by
  simp [checkPeersVoted, h]

/-- C6 witness: concrete empty-peer transaction. -/
theorem checkPeersVoted_empty_peers_witness :
    (⟨"t2", [], "", 50⟩ : Transaction).InvolvedPeers = [] ∧
    checkPeersVoted 99 ⟨"t2", [], "", 50⟩ = (false, "") :=
  ⟨rfl, checkPeersVoted_empty_peers 99 ⟨"t2", [], "", 50⟩ rfl⟩

/-- C9: a successful `addTransaction` persists the request with
`final_decision = Pending`, every peer's decision overwritten to `Pending`
(see `addedTransaction` and `addedTransaction_peers_pending`), and
`expires_at` equal to the creation time plus five minutes; an immediately
following `queryTransaction` under the same id returns exactly that
record. -/
theorem addTransaction_roundtrip (now : Nat) (store : Store) (req : Transaction)
    (hid : req.TransactionID ≠ "")
    (hfresh : store req.TransactionID = none)
    (hpeers : req.InvolvedPeers ≠ []) :
    (addTransaction now store req).2 = .ok () ∧
    queryTransaction (addTransaction now store req).1 req.TransactionID =
      .ok { req with
            FinalDecision := PendingState
            TransactionExpire := now + 300
            InvolvedPeers := req.InvolvedPeers.map fun p =>
              { p with PeerDecision := PendingState } } := by
  have hlen : ¬ (req.InvolvedPeers.length ≤ 0) := by
    simp [List.length_eq_zero, hpeers]
  constructor
  · simp [addTransaction, checkTransactionIDExistence, hfresh, hid, hlen]
  · simp [addTransaction, checkTransactionIDExistence, hfresh, hid, hlen,
      queryTransaction, putState, addedTransaction]

/-- C9 witness: add "tx1" at time 40 with two peers carrying stray
decisions; the immediate query returns the normalised record with expiry
340. -/
theorem addTransaction_roundtrip_witness :
    (⟨"tx1", [⟨"p1", "C"⟩, ⟨"p2", "A"⟩], "C", 9⟩ : Transaction).TransactionID ≠ "" ∧
    emptyStore "tx1" = none ∧
    (⟨"tx1", [⟨"p1", "C"⟩, ⟨"p2", "A"⟩], "C", 9⟩ : Transaction).InvolvedPeers ≠ [] ∧
    ((addTransaction 40 emptyStore ⟨"tx1", [⟨"p1", "C"⟩, ⟨"p2", "A"⟩], "C", 9⟩).2 = .ok () ∧
     queryTransaction (addTransaction 40 emptyStore ⟨"tx1", [⟨"p1", "C"⟩, ⟨"p2", "A"⟩], "C", 9⟩).1
        "tx1" =
       .ok { (⟨"tx1", [⟨"p1", "C"⟩, ⟨"p2", "A"⟩], "C", 9⟩ : Transaction) with
             FinalDecision := PendingState
             TransactionExpire := 40 + 300
             InvolvedPeers :=
               (⟨"tx1", [⟨"p1", "C"⟩, ⟨"p2", "A"⟩], "C", 9⟩ : Transaction).InvolvedPeers.map
                 fun p => { p with PeerDecision := PendingState } }) :=
  ⟨by decide, rfl, by decide,
   addTransaction_roundtrip 40 emptyStore ⟨"tx1", [⟨"p1", "C"⟩, ⟨"p2", "A"⟩], "C", 9⟩
     (by decide) rfl (by decide)⟩

/-- C3 counterexample: a transaction created at time 0 whose second peer
never votes, with its first peer having voted Commit at time 10, read via
`queryFinalDecision` at time 301 (past the 300-second expiry): the reported
final decision is `Pending`, not `Abort`, and the stored record still
carries `final_decision = Pending` — because the engine only ever inspects
the first peer. -/
theorem queryFinalDecision_timeout_counterexample :
    (queryFinalDecision 301
        (makePeerDecision 10
          (addTransaction 0 emptyStore ⟨"tx1", [⟨"p1", ""⟩, ⟨"p2", ""⟩], "", 0⟩).1
          ⟨"tx1", "p1", "C"⟩).1
        "tx1").2 = .ok ⟨"tx1", PendingState⟩ ∧
    (queryFinalDecision 301
        (makePeerDecision 10
          (addTransaction 0 emptyStore ⟨"tx1", [⟨"p1", ""⟩, ⟨"p2", ""⟩], "", 0⟩).1
          ⟨"tx1", "p1", "C"⟩).1
        "tx1").1 "tx1" =
      some ⟨"tx1", [⟨"p1", "C"⟩, ⟨"p2", "P"⟩], "P", 300⟩ := by
  constructor <;> rfl

/-- C3 amended: for every stored transaction whose *first* involved peer has
never voted (decision empty or `Pending`), a `queryFinalDecision` call made
after `expires_at` reports `Abort` and persists the record with
`final_decision = Abort`.  (Records created by `addTransaction` at `T0`
carry `expires_at = T0 + 300` and all-`Pending` peers, so this covers a
creation whose first peer never votes, queried past `T0` + five
minutes.) -/
theorem queryFinalDecision_timeout_first_peer_pending (now : Nat) (store : Store)
    (transID : String) (tx : Transaction) (p : Peer) (rest : List Peer)
    (hstore : store transID = some tx)
    (hid : tx.TransactionID = transID)
    (hne : transID ≠ "")
    (hpeers : tx.InvolvedPeers = p :: rest)
    (hp : p.PeerDecision = "" ∨ p.PeerDecision = PendingState)
    (hexp : tx.TransactionExpire < now) :
    queryFinalDecision now store transID =
      (putState store transID { tx with FinalDecision := AbortState },
       .ok { TransactionID := transID, FinalDecision := AbortState }) := by
  have hck : checkPeersVoted now tx = (true, AbortState) := by
    rw [checkPeersVoted_first_peer_only now tx p rest hpeers]
    have hA : ¬ p.PeerDecision = AbortState := by
      rcases hp with h | h <;> rw [h] <;> decide
    rw [if_neg hA, if_pos ⟨hp, hexp⟩]
  simp [queryFinalDecision, checkTransactionIDExistence, hstore, hid, hne, hck]

/-- C3 amended witness: transaction created at time 0 (expiry 300) whose
single peer never votes, queried at 301. -/
theorem queryFinalDecision_timeout_first_peer_pending_witness :
    putState emptyStore "tx1" ⟨"tx1", [⟨"p1", "P"⟩], "P", 300⟩ "tx1" =
      some ⟨"tx1", [⟨"p1", "P"⟩], "P", 300⟩ ∧
    queryFinalDecision 301 (putState emptyStore "tx1" ⟨"tx1", [⟨"p1", "P"⟩], "P", 300⟩) "tx1" =
      (putState (putState emptyStore "tx1" ⟨"tx1", [⟨"p1", "P"⟩], "P", 300⟩) "tx1"
        { (⟨"tx1", [⟨"p1", "P"⟩], "P", 300⟩ : Transaction) with FinalDecision := AbortState },
       .ok { TransactionID := "tx1", FinalDecision := AbortState }) :=
  ⟨rfl,
   queryFinalDecision_timeout_first_peer_pending 301 _ "tx1"
     ⟨"tx1", [⟨"p1", "P"⟩], "P", 300⟩ ⟨"p1", "P"⟩ [] rfl rfl (by decide) rfl
     (Or.inr rfl) (by decide)⟩

/-- C2 (code bug): an Abort vote by a member peer of an existing,
non-terminal transaction returns success but persists nothing — the Go code
sets `FinalDecision = Abort` on its local copy and returns before
`PutState` — so a subsequent read still observes `final_decision = Pending`
(and the peer's recorded vote still `Pending`), contradicting the
documented "set `final_decision = Abort` and persist" behaviour. -/
theorem makePeerDecision_abort_not_persisted :
    (makePeerDecision 10
        (putState emptyStore "tx1" ⟨"tx1", [⟨"p1", "P"⟩], "P", 300⟩)
        ⟨"tx1", "p1", "A"⟩).2 = .ok () ∧
    (makePeerDecision 10
        (putState emptyStore "tx1" ⟨"tx1", [⟨"p1", "P"⟩], "P", 300⟩)
        ⟨"tx1", "p1", "A"⟩).1 "tx1" =
      some ⟨"tx1", [⟨"p1", "P"⟩], "P", 300⟩ := by
  constructor <;> rfl

/-! ## Engine result characterisation, store invariant, reachability -/

lemma votedLoop_cons_cases (now expire : Nat) (p : Peer) (rest : List Peer) :
    votedLoop now expire (p :: rest) = (true, AbortState) ∨
    votedLoop now expire (p :: rest) = (false, PendingState) := by
  by_cases h1 : p.PeerDecision ≠ "" ∧ p.PeerDecision = AbortState
  · left; simp only [votedLoop]; rw [if_pos h1]
  · by_cases h2 : (p.PeerDecision = "" ∨ p.PeerDecision = PendingState) ∧ expire < now
    · left; simp only [votedLoop]; rw [if_neg h1, if_pos h2]
    · right; simp only [votedLoop]; rw [if_neg h1, if_neg h2]

/-- The engine returns `(false, "")`, `(true, Abort)` or `(false, Pending)`;
in particular the post-loop `(true, Commit)` return is unreachable. -/
lemma checkPeersVoted_cases (now : Nat) (tran : Transaction) :
    checkPeersVoted now tran = (false, "") ∨
    checkPeersVoted now tran = (true, AbortState) ∨
    checkPeersVoted now tran = (false, PendingState) := by
  unfold checkPeersVoted
  cases h : tran.InvolvedPeers with
  | nil => left; simp
  | cons p rest =>
    have hlen : ¬ ((p :: rest).length ≤ 0) := by simp
    rw [if_neg hlen]
    rcases votedLoop_cons_cases now tran.TransactionExpire p rest with hv | hv
    · right; left; exact hv
    · right; right; exact hv

/-- When the engine reports a decision, that decision is `Abort`. -/
lemma checkPeersVoted_decided_abort (now : Nat) (tran : Transaction)
    (h : (checkPeersVoted now tran).1 = true) :
    checkPeersVoted now tran = (true, AbortState) := by
  rcases checkPeersVoted_cases now tran with hc | hc | hc
  · rw [hc] at h; simp at h
  · exact hc
  · rw [hc] at h; simp at h

lemma voteResult_TransactionID (now : Nat) (transaction : Transaction) (newPeers : List Peer) :
    (voteResult now transaction newPeers).TransactionID = transaction.TransactionID := by
  simp only [voteResult]
  split <;> rfl

lemma voteResult_FinalDecision (now : Nat) (transaction : Transaction) (newPeers : List Peer) :
    (voteResult now transaction newPeers).FinalDecision = AbortState ∨
    (voteResult now transaction newPeers).FinalDecision = transaction.FinalDecision := by
  simp only [voteResult]
  split
  · rename_i hres
    left
    have h := checkPeersVoted_decided_abort now { transaction with InvolvedPeers := newPeers } hres
    simp [h]
  · right; rfl

lemma addTransaction_store_cases (now : Nat) (store : Store) (req : Transaction) :
    (addTransaction now store req).1 = store ∨
    (store req.TransactionID = none ∧
     (addTransaction now store req).1 =
       putState store req.TransactionID (addedTransaction now req)) := by
  cases hs : store req.TransactionID with
  | some t =>
    left
    simp [addTransaction, checkTransactionIDExistence, hs]
  | none =>
    by_cases hid : req.TransactionID = ""
    · left; simp [addTransaction, hid]
    · by_cases hlen : req.InvolvedPeers.length ≤ 0
      · left; simp [addTransaction, checkTransactionIDExistence, hs, hid, hlen]
      · right
        refine ⟨rfl, ?_⟩
        simp [addTransaction, checkTransactionIDExistence, hs, hid, hlen, addedTransaction]

lemma makePeerDecision_store_cases (now : Nat) (store : Store) (req : PeerUpdateRequestModel) :
    (makePeerDecision now store req).1 = store ∨
    ∃ tx newPeers, store req.TransactionID = some tx ∧
      (tx.FinalDecision = "" ∨ tx.FinalDecision = PendingState) ∧
      (makePeerDecision now store req).1 =
        putState store (voteResult now tx newPeers).TransactionID (voteResult now tx newPeers) := by
  cases hs : store req.TransactionID with
  | none => left; simp [makePeerDecision, checkTransactionIDExistence, hs]
  | some tx =>
    by_cases hid : req.TransactionID = ""
    · left; simp [makePeerDecision, hid]
    · by_cases hterm : tx.FinalDecision ≠ "" ∧ tx.FinalDecision ≠ PendingState
      · left; simp [makePeerDecision, checkTransactionIDExistence, hs, hid, hterm]
      · by_cases hlen : tx.InvolvedPeers.length ≤ 0
        · left
          simp [makePeerDecision, checkTransactionIDExistence, hs, hid, hterm, hlen]
        · cases hup : updatePeer tx.InvolvedPeers req.PeerID req.Decision with
          | none =>
            left
            simp [makePeerDecision, checkTransactionIDExistence, hs, hid, hterm, hlen, hup]
          | some newPeers =>
            by_cases habort : req.Decision = AbortState
            · left
              rw [habort] at hup
              simp [makePeerDecision, checkTransactionIDExistence, hs, hid, hterm, hlen, hup,
                habort]
            · right
              refine ⟨tx, newPeers, rfl, ?_, ?_⟩
              · by_cases h0 : tx.FinalDecision = ""
                · exact Or.inl h0
                · right
                  by_cases hP : tx.FinalDecision = PendingState
                  · exact hP
                  · exact absurd ⟨h0, hP⟩ hterm
              · simp [makePeerDecision, checkTransactionIDExistence, hs, hid, hterm, hlen, hup,
                  habort]

lemma queryFinalDecision_store_cases (now : Nat) (store : Store) (transID : String) :
    (queryFinalDecision now store transID).1 = store ∨
    ∃ tx, store transID = some tx ∧
      (queryFinalDecision now store transID).1 =
        putState store tx.TransactionID { tx with FinalDecision := AbortState } := by
  cases hs : store transID with
  | none => left; simp [queryFinalDecision, checkTransactionIDExistence, hs]
  | some scTrans =>
    by_cases hid : scTrans.TransactionID = ""
    · left; simp [queryFinalDecision, checkTransactionIDExistence, hs, hid]
    · by_cases hres : (checkPeersVoted now scTrans).1 = true
      · right
        refine ⟨scTrans, rfl, ?_⟩
        have h := checkPeersVoted_decided_abort now scTrans hres
        simp [queryFinalDecision, checkTransactionIDExistence, hs, hid, h]
      · left
        have hres2 : (checkPeersVoted now scTrans).1 = false := by
          cases hv : (checkPeersVoted now scTrans).1
          · rfl
          · exact absurd hv hres
        simp [queryFinalDecision, checkTransactionIDExistence, hs, hid, hres2]

/-- Invariant of every reachable ledger: each record sits under its own
`transaction_id` and its `final_decision` is `Pending` or `Abort`. -/
def StoreInv (store : Store) : Prop :=
  ∀ k t, store k = some t → t.TransactionID = k ∧
    (t.FinalDecision = PendingState ∨ t.FinalDecision = AbortState)

lemma storeInv_empty : StoreInv emptyStore := by
  intro k t h
  simp [emptyStore] at h

lemma storeInv_putState (store : Store) (t : Transaction) (hinv : StoreInv store)
    (hfin : t.FinalDecision = PendingState ∨ t.FinalDecision = AbortState) :
    StoreInv (putState store t.TransactionID t) := by
  intro k u hk
  unfold putState at hk
  by_cases hkey : k = t.TransactionID
  · rw [if_pos hkey] at hk
    have ht : t = u := Option.some.inj hk
    subst ht
    exact ⟨hkey.symm, hfin⟩
  · rw [if_neg hkey] at hk
    exact hinv k u hk

lemma storeInv_applyOp (op : Op) (store : Store) (hinv : StoreInv store) :
    StoreInv (applyOp op store) := by
  cases op with
  | add now req =>
    rcases addTransaction_store_cases now store req with h | ⟨hnone, h⟩
    · show StoreInv (addTransaction now store req).1
      rw [h]; exact hinv
    · show StoreInv (addTransaction now store req).1
      rw [h]
      exact storeInv_putState store (addedTransaction now req) hinv (Or.inl rfl)
  | vote now req =>
    rcases makePeerDecision_store_cases now store req with h | ⟨tx, newPeers, hs, hfin, h⟩
    · show StoreInv (makePeerDecision now store req).1
      rw [h]; exact hinv
    · show StoreInv (makePeerDecision now store req).1
      rw [h]
      apply storeInv_putState store (voteResult now tx newPeers) hinv
      rcases voteResult_FinalDecision now tx newPeers with hv | hv
      · exact Or.inr hv
      · rw [hv]
        exact (hinv req.TransactionID tx hs).2
  | queryFinal now transID =>
    rcases queryFinalDecision_store_cases now store transID with h | ⟨tx, hs, h⟩
    · show StoreInv (queryFinalDecision now store transID).1
      rw [h]; exact hinv
    · show StoreInv (queryFinalDecision now store transID).1
      rw [h]
      exact storeInv_putState store { tx with FinalDecision := AbortState } hinv (Or.inr rfl)

/-- One operation never disturbs a transaction whose stored
`final_decision` is `Abort`. -/
lemma abort_stable_applyOp (op : Op) (store : Store) (id : String) (tx : Transaction)
    (hinv : StoreInv store) (hid : store id = some tx)
    (hfin : tx.FinalDecision = AbortState) :
    ∃ t, applyOp op store id = some t ∧ t.FinalDecision = AbortState := by
  cases op with
  | add now req =>
    rcases addTransaction_store_cases now store req with h | ⟨hnone, h⟩
    · refine ⟨tx, ?_, hfin⟩
      show (addTransaction now store req).1 id = some tx
      rw [h]; exact hid
    · have hne : ¬ (id = req.TransactionID) := by
        intro hc
        rw [hc, hnone] at hid
        cases hid
      refine ⟨tx, ?_, hfin⟩
      show (addTransaction now store req).1 id = some tx
      rw [h]
      unfold putState
      rw [if_neg hne]
      exact hid
  | vote now req =>
    rcases makePeerDecision_store_cases now store req with h | ⟨tx2, newPeers, hs, hfin2, h⟩
    · refine ⟨tx, ?_, hfin⟩
      show (makePeerDecision now store req).1 id = some tx
      rw [h]; exact hid
    · have hne : req.TransactionID ≠ id := by
        intro hc
        rw [hc, hid] at hs
        have he : tx = tx2 := Option.some.inj hs
        rw [← he] at hfin2
        rcases hfin2 with h0 | h0 <;> rw [hfin] at h0 <;> exact absurd h0 (by decide)
      have hkey : (voteResult now tx2 newPeers).TransactionID = req.TransactionID := by
        rw [voteResult_TransactionID]
        exact (hinv req.TransactionID tx2 hs).1
      refine ⟨tx, ?_, hfin⟩
      show (makePeerDecision now store req).1 id = some tx
      rw [h]
      unfold putState
      rw [if_neg (by rw [hkey]; exact fun hc => hne hc.symm)]
      exact hid
  | queryFinal now transID =>
    rcases queryFinalDecision_store_cases now store transID with h | ⟨tx2, hs, h⟩
    · refine ⟨tx, ?_, hfin⟩
      show (queryFinalDecision now store transID).1 id = some tx
      rw [h]; exact hid
    · have hkey : tx2.TransactionID = transID := (hinv transID tx2 hs).1
      by_cases hc : transID = id
      · subst hc
        rw [hid] at hs
        have he : tx = tx2 := Option.some.inj hs
        refine ⟨{ tx2 with FinalDecision := AbortState }, ?_, rfl⟩
        show (queryFinalDecision now store transID).1 transID = some _
        rw [h]
        unfold putState
        rw [if_pos hkey.symm]
      · refine ⟨tx, ?_, hfin⟩
        show (queryFinalDecision now store transID).1 id = some tx
        rw [h]
        unfold putState
        rw [if_neg (by rw [hkey]; exact fun hcc => hc hcc.symm)]
        exact hid

lemma storeInv_applyOps (ops : List Op) (store : Store) (hinv : StoreInv store) :
    StoreInv (applyOps ops store) := by
  induction ops generalizing store with
  | nil => exact hinv
  | cons op rest ih =>
    show StoreInv (applyOps rest (applyOp op store))
    exact ih (applyOp op store) (storeInv_applyOp op store hinv)

lemma abort_stable_applyOps (ops : List Op) (store : Store) (id : String) (tx : Transaction)
    (hinv : StoreInv store) (hid : store id = some tx)
    (hfin : tx.FinalDecision = AbortState) :
    ∃ t, applyOps ops store id = some t ∧ t.FinalDecision = AbortState := by
  induction ops generalizing store tx with
  | nil => exact ⟨tx, hid, hfin⟩
  | cons op rest ih =>
    obtain ⟨t1, h1, hA1⟩ := abort_stable_applyOp op store id tx hinv hid hfin
    show ∃ t, applyOps rest (applyOp op store) id = some t ∧ t.FinalDecision = AbortState
    exact ih (applyOp op store) t1 (storeInv_applyOp op store hinv) h1 hA1

lemma storeInv_reachable (ops : List Op) : StoreInv (applyOps ops emptyStore) :=
  storeInv_applyOps ops emptyStore storeInv_empty

/-- C4: `final_decision` is monotonic over the system's own executions: if a
ledger reached from the empty ledger by `addTransaction` /
`makePeerDecision` / `queryFinalDecision` invocations stores a transaction
whose `final_decision` is terminal (Commit or Abort), then after any
further sequence of those operations the record is still present with the
same `final_decision` — never a different terminal value and never back to
`Pending`.  (Reachability also shows the terminal value is necessarily
`Abort`: the engine never yields Commit.) -/
theorem finalDecision_monotonic (ops1 ops2 : List Op) (id : String) (tx : Transaction)
    (h1 : applyOps ops1 emptyStore id = some tx)
    (h2 : tx.FinalDecision = CommitState ∨ tx.FinalDecision = AbortState) :
    (applyOps ops2 (applyOps ops1 emptyStore) id).map Transaction.FinalDecision =
      some tx.FinalDecision := by
  have hinv := storeInv_reachable ops1
  have hfin := (hinv id tx h1).2
  have hA : tx.FinalDecision = AbortState := by
    rcases h2 with h | h
    · rcases hfin with h2 | h2 <;> rw [h] at h2 <;> exact absurd h2 (by decide)
    · exact h
  obtain ⟨t, ht, htA⟩ := abort_stable_applyOps ops2 (applyOps ops1 emptyStore) id tx hinv h1 hA
  rw [ht, Option.map_some', htA, hA]

/-- C4 witness: "tx1" is created at time 0 and aborted by timeout via a
`queryFinalDecision` at time 400; a later Commit vote at time 500 leaves the
stored `final_decision` at Abort. -/
theorem finalDecision_monotonic_witness :
    applyOps [Op.add 0 ⟨"tx1", [⟨"p1", ""⟩], "", 0⟩, Op.queryFinal 400 "tx1"] emptyStore "tx1" =
      some ⟨"tx1", [⟨"p1", "P"⟩], "A", 300⟩ ∧
    ((⟨"tx1", [⟨"p1", "P"⟩], "A", 300⟩ : Transaction).FinalDecision = CommitState ∨
      (⟨"tx1", [⟨"p1", "P"⟩], "A", 300⟩ : Transaction).FinalDecision = AbortState) ∧
    (applyOps [Op.vote 500 ⟨"tx1", "p1", "C"⟩]
        (applyOps [Op.add 0 ⟨"tx1", [⟨"p1", ""⟩], "", 0⟩, Op.queryFinal 400 "tx1"] emptyStore)
        "tx1").map Transaction.FinalDecision =
      some (⟨"tx1", [⟨"p1", "P"⟩], "A", 300⟩ : Transaction).FinalDecision :=
  ⟨rfl, Or.inr rfl,
   finalDecision_monotonic [Op.add 0 ⟨"tx1", [⟨"p1", ""⟩], "", 0⟩, Op.queryFinal 400 "tx1"]
     [Op.vote 500 ⟨"tx1", "p1", "C"⟩] "tx1" ⟨"tx1", [⟨"p1", "P"⟩], "A", 300⟩ rfl (Or.inr rfl)⟩

/-- C10: the vote evaluation engine never returns `(true, Commit)` — its
Commit branch is unreachable (empty peer lists short-circuit to
`(false, "")` before the loop, and every loop branch returns) — and
consequently no sequence of mutating operations from the empty ledger ever
persists `final_decision = Commit` for any transaction, single-peer
transactions included. -/
theorem checkPeersVoted_never_commit :
    (∀ now tran, checkPeersVoted now tran ≠ (true, CommitState)) ∧
    (∀ ops id tx, applyOps ops emptyStore id = some tx →
      tx.FinalDecision ≠ CommitState) := by
  constructor
  · intro now tran hc
    rcases checkPeersVoted_cases now tran with h | h | h <;> rw [h] at hc <;>
      exact absurd hc (by decide)
  · intro ops id tx h hC
    rcases (storeInv_reachable ops id tx h).2 with h2 | h2 <;> rw [hC] at h2 <;>
      exact absurd h2 (by decide)

/-- C10 witness: the engine on a single Commit-voting peer still reports
`(false, Pending)` rather than `(true, Commit)`, and the record created by a
concrete `addTransaction` does not carry Commit. -/
theorem checkPeersVoted_never_commit_witness :
    checkPeersVoted 0 ⟨"t", [⟨"p1", "C"⟩], "P", 300⟩ ≠ (true, CommitState) ∧
    applyOps [Op.add 0 ⟨"tx1", [⟨"p1", ""⟩], "", 0⟩] emptyStore "tx1" =
      some ⟨"tx1", [⟨"p1", "P"⟩], "P", 300⟩ ∧
    (⟨"tx1", [⟨"p1", "P"⟩], "P", 300⟩ : Transaction).FinalDecision ≠ CommitState :=
  ⟨checkPeersVoted_never_commit.1 0 ⟨"t", [⟨"p1", "C"⟩], "P", 300⟩, rfl,
   checkPeersVoted_never_commit.2 [Op.add 0 ⟨"tx1", [⟨"p1", ""⟩], "", 0⟩] "tx1"
     ⟨"tx1", [⟨"p1", "P"⟩], "P", 300⟩ rfl⟩
